import Mathlib

/-!
Verification of the CoQt fiber runtime (src/lib/fiber.h) against its
natural-language specification.  The header declares the public contract of
the Fiber class; the implementation files (fiber.cpp, wakecondition.h,
context.h) are not part of the sources, so the runtime behaviour of fiber
creation, wake, and the scheduler tick loop is modelled from the
specification, while the inline template members of fiber.h are embedded
directly from the header text.
-/

namespace CoQt

/-- Fiber lifecycle states, embedded from the FiberState enum in
src/lib/fiber.h lines 40 to 46. -/
inductive FiberState
  | FiberIdle
  | FiberRunning
  | FiberWaiting
  | FiberFinished
  deriving DecidableEq

/-- Observer notifications, embedded from the signals block of
src/lib/fiber.h lines 121 to 126. -/
inductive Signal
  | running
  | waiting
  | finished
  | stateChanged (state : FiberState)
  deriving DecidableEq

/-- Modelled from the spec: wakecondition.h is not under src.  The
WakeCondition variants follow the table in section 4.2 of the spec: tick
based, timed, poll (with bookkeeping for the number of predicate
invocations made so far and whether a true return is pending a wake on the
following tick), future completion, and manual only.  The poll predicate is
represented as a function of the invocation index. -/
inductive WakeCondition
  | nextTick
  | timed (iMs : Nat)
  | poll (func : Nat → Bool) (iPollInterval : Nat) (invocations : Nat) (pendingWake : Bool)
  | futureCompletion (handle : Nat)
  | manual

/-- Modelled from the spec: a fiber body is a sequence of suspension
requests made by the user supplied entry function before it returns; each
request names the yield overload the body invokes at that suspension
point. -/
inductive YieldReq
  | onTick
  | onTimer (iMs : Nat)
  | onPoll (func : Nat → Bool) (iPollInterval : Nat)
  | onFuture (handle : Nat)
  | forever

/-- Modelled from the spec: the WakeCondition installed by each yield
overload at the moment the fiber suspends (section 4.3 of the spec). -/
def YieldReq.cond : YieldReq → WakeCondition
  | YieldReq.onTick => WakeCondition.nextTick
  | YieldReq.onTimer iMs => WakeCondition.timed iMs
  | YieldReq.onPoll func iPollInterval => WakeCondition.poll func iPollInterval 0 false
  | YieldReq.onFuture handle => WakeCondition.futureCompletion handle
  | YieldReq.forever => WakeCondition.manual

/-- Modelled from the spec: a Fiber owns one FiberState, at most one active
WakeCondition, and the remaining suspension requests of its entry
function (section 3 of the spec, data model). -/
structure Fiber where
  state : FiberState
  cond : Option WakeCondition
  body : List YieldReq

/-- Modelled from the spec: the wake slot of fiber.h line 130.  Per section
4.3 of the spec, wake performs the Waiting to Running transition, retires
the previously active WakeCondition, and emits the running and
stateChanged notifications; a call while the fiber is not Waiting is a
no-op with no notification (sections 4.2 tie-break policy and 7). -/
def Fiber.wake (f : Fiber) : Fiber × List Signal :=
  if f.state = FiberState.FiberWaiting then
    ({ f with state := FiberState.FiberRunning, cond := none },
      [Signal.running, Signal.stateChanged FiberState.FiberRunning])
  else
    (f, [])

/-- Modelled from the spec: execution of the fiber body from the current
resumption point up to the next suspension or to completion.  If another
suspension request remains, the fiber installs the corresponding
WakeCondition and transitions Running to Waiting, emitting waiting and
stateChanged; if the entry function returns, the fiber transitions Running
to Finished, emitting finished and stateChanged (section 4.3). -/
def Fiber.runBody (f : Fiber) : Fiber × List Signal :=
  if f.state = FiberState.FiberRunning then
    match f.body with
    | [] =>
      ({ f with state := FiberState.FiberFinished, cond := none },
        [Signal.finished, Signal.stateChanged FiberState.FiberFinished])
    | r :: rest =>
      ({ state := FiberState.FiberWaiting, cond := some r.cond, body := rest },
        [Signal.waiting, Signal.stateChanged FiberState.FiberWaiting])
  else
    (f, [])

/-- Modelled from the spec: the Idle to Running transition taken when the
entry function begins executing on the new Context (section 4.3). -/
def Fiber.start (f : Fiber) : Fiber × List Signal :=
  if f.state = FiberState.FiberIdle then
    ({ f with state := FiberState.FiberRunning },
      [Signal.running, Signal.stateChanged FiberState.FiberRunning])
  else
    (f, [])

/-- Modelled from the spec: createFiber of fiber.h line 135.  The new fiber
starts in Idle, immediately begins executing the entry function, and is
synchronously advanced to its first suspension or to Finished before the
call returns (sections 4.3 and 8). -/
def createFiber (func : List YieldReq) : Fiber × List Signal :=
  let f0 : Fiber := { state := FiberState.FiberIdle, cond := none, body := func }
  let p1 := f0.start
  let p2 := p1.1.runBody
  (p2.1, p1.2 ++ p2.2)

/-- Modelled from the spec: a wake delivered to a waiting fiber followed by
the resumed body running to its next suspension point or to completion,
as the scheduler performs it when a WakeCondition fires. -/
def Fiber.wakeRun (f : Fiber) : Fiber × List Signal :=
  let p1 := f.wake
  let p2 := p1.1.runBody
  (p2.1, p1.2 ++ p2.2)

/-- Ceiling division on naturals, used to convert milliseconds into whole
scheduler ticks. -/
def ceilDiv (a b : Nat) : Nat := (a + b - 1) / b

/-- Modelled from the spec: the number of whole scheduler ticks covering
iMs milliseconds at tick period `period`, never less than one full tick
(fiber.h lines 68 to 77: a duration smaller than one scheduler tick waits
a full tick). -/
def ticksFor (period iMs : Nat) : Nat := max 1 (ceilDiv iMs period)

/-- Modelled from the spec: one scheduler tick evaluating the WakeCondition
of a waiting fiber, `elapsed` ticks after the fiber suspended (elapsed
counts from 1 on the first tick after suspension).  A nextTick condition
fires at once; a timed condition fires once the elapsed time reaches the
requested duration; a poll condition invokes its predicate once per poll
cadence and wakes the fiber on the tick following a true return; future
completion and manual conditions are not tick polled (section 4.2). -/
def schedTick (period : Nat) (f : Fiber) (elapsed : Nat) : Fiber × List Signal :=
  match f.state, f.cond with
  | FiberState.FiberWaiting, some WakeCondition.nextTick => f.wakeRun
  | FiberState.FiberWaiting, some (WakeCondition.timed iMs) =>
      if iMs ≤ elapsed * period then f.wakeRun else (f, [])
  | FiberState.FiberWaiting, some (WakeCondition.poll func iPollInterval inv pending) =>
      if pending then f.wakeRun
      else if elapsed % ticksFor period iPollInterval = 0 then
        ({ f with cond := some (WakeCondition.poll func iPollInterval (inv + 1) (func inv)) }, [])
      else (f, [])
  | _, _ => (f, [])

/-- Modelled from the spec: the scheduler tick loop run for `n` ticks
starting at elapsed tick `e`, accumulating the emitted notifications. -/
def schedRunFrom (period : Nat) (f : Fiber) (e n : Nat) : Fiber × List Signal :=
  match n with
  | 0 => (f, [])
  | Nat.succ m =>
    let p1 := schedTick period f e
    let p2 := schedRunFrom period p1.1 (e + 1) m
    (p2.1, p1.2 ++ p2.2)

/-- Modelled from the spec: the scheduler tick loop run for `n` ticks after
a fiber suspends, the first tick being elapsed tick 1. -/
def schedRun (period : Nat) (f : Fiber) (n : Nat) : Fiber × List Signal :=
  schedRunFrom period f 1 n

/-- Waiting fiber holding a timed WakeCondition, as left behind by a timed
yield. -/
def timedFiber (iMs : Nat) (body : List YieldReq) : Fiber :=
  { state := FiberState.FiberWaiting, cond := some (WakeCondition.timed iMs), body := body }

/-- Waiting fiber holding a poll WakeCondition, as left behind by a poll
yield; `inv` counts the predicate invocations already made and `pending`
records a true return awaiting the next tick. -/
def pollFiber (func : Nat → Bool) (iPollInterval inv : Nat) (pending : Bool)
    (body : List YieldReq) : Fiber :=
  { state := FiberState.FiberWaiting,
    cond := some (WakeCondition.poll func iPollInterval inv pending), body := body }

/-- Concrete finished fiber used to instantiate theorems about terminal
states. -/
def finishedSample : Fiber :=
  { state := FiberState.FiberFinished, cond := none, body := [YieldReq.onTick] }

/-- Concrete waiting fiber with a pending manual condition, used to
instantiate theorems about the wake transition. -/
def waitingSample : Fiber :=
  { state := FiberState.FiberWaiting, cond := some WakeCondition.manual, body := [] }

/-- Allowed state transition edges of the fiber lifecycle state machine
(section 4.3 of the spec), reflexive steps included. -/
def allowedStep (s t : FiberState) : Prop :=
  s = t ∨
  (s = FiberState.FiberIdle ∧ t = FiberState.FiberRunning) ∨
  (s = FiberState.FiberRunning ∧ t = FiberState.FiberWaiting) ∨
  (s = FiberState.FiberWaiting ∧ t = FiberState.FiberRunning) ∨
  (s = FiberState.FiberRunning ∧ t = FiberState.FiberFinished)

/-- Observable outcome of the static template member yield on a QFuture. -/
structure YieldFutureResult (T : Type) where
  returned : T
  installedWaker : Bool
  suspended : Bool
  errorReported : Bool
  deriving DecidableEq

/-- Shallow embedding of the static template member yield on a QFuture,
from src/lib/fiber.h lines 93 to 103: when no fiber is current on the
calling execution context the handle is returned at once; otherwise a
QFutureWakeCondition for the handle is constructed, the fiber suspends via
yieldForever, and after resumption the identical handle is returned.  No
branch reports an error. -/
def yieldFuture {T : Type} (curFiber : Option Fiber) (future : T) : YieldFutureResult T :=
  match curFiber with
  | none =>
    { returned := future, installedWaker := false, suspended := false, errorReported := false }
  | some _ =>
    { returned := future, installedWaker := true, suspended := true, errorReported := false }

/-- Record of a created fiber retaining the stack size resolved for it at
creation time. -/
structure FiberRec where
  stackSize : Nat
  deriving DecidableEq

/-- Modelled from the spec: the process-wide configuration and the fibers
created so far; fiber.cpp, which holds the static stack size variable read
by getDefaultStackSize and setDefaultStackSize of fiber.h lines 118 to
119, is not under src.  The hostStackSize field is the stack size the host
execution model defaults to. -/
structure World where
  uiDefaultStackSize : Nat
  hostStackSize : Nat
  fibers : List FiberRec

/-- Modelled from the spec: getDefaultStackSize returns the process-wide
configured value (a quint32). -/
def getDefaultStackSize (w : World) : Nat := w.uiDefaultStackSize

/-- Modelled from the spec: setDefaultStackSize stores the quint32 value in
the process-wide configuration and touches nothing else. -/
def setDefaultStackSize (w : World) (uiStackSize : Nat) : World :=
  { w with uiDefaultStackSize := uiStackSize % 2 ^ 32 }

/-- Modelled from the spec: the stack size actually used for a fiber
created now; a configured value of 0 means the host process default is
used. -/
def resolveStackSize (w : World) : Nat :=
  if w.uiDefaultStackSize = 0 then w.hostStackSize else w.uiDefaultStackSize

/-- Modelled from the spec: fiber creation consults the configured default
stack size exactly once, at creation time, and records the resolved value
with the new fiber. -/
def createFiberRec (w : World) : World × FiberRec :=
  let r : FiberRec := { stackSize := resolveStackSize w }
  ({ w with fibers := w.fibers ++ [r] }, r)

/-- Names of the callable members that class Fiber declares in
src/lib/fiber.h and that an unqualified call written inside the class body
can resolve to. -/
def fiberCallableNames : List String :=
  ["yield", "yieldForever", "wake", "getState", "isRunning", "isWaiting", "isFinished",
    "getDefaultStackSize", "setDefaultStackSize"]

/-- Unqualified callee name written in the member-pointer yield template at
src/lib/fiber.h line 83. -/
def memberYieldCalleeName : String := "yeild"

/-- Name resolution of an unqualified call inside class Fiber against the
members the header declares. -/
def resolveCallable (name : String) : Option String :=
  fiberCallableNames.find? (fun s => s == name)

/-- Return types relevant to the member-pointer yield template. -/
inductive CppRetType
  | voidType
  | boolType
  deriving DecidableEq

/-- Return type of the member function pointer parameter of the
member-pointer yield template, src/lib/fiber.h line 81. -/
def memberYieldFuncPtrRet : CppRetType := CppRetType.voidType

/-- Return type required of the callable passed to the functional poll
yield overload, src/lib/fiber.h line 77. -/
def pollYieldFuncRet : CppRetType := CppRetType.boolType

/-- Whether a callable returning the given type can be wrapped as the bool
returning std function the poll yield overload expects. -/
def usableAsPollFunc : CppRetType → Bool
  | CppRetType.voidType => false
  | CppRetType.boolType => true

/-- C1: immediately after createFiber returns, the fiber state is
FiberWaiting when the entry function yielded and FiberFinished when it
returned without yielding; it is never FiberIdle, because the entry
function runs synchronously up to its first suspension before the creating
call returns. -/
theorem createFiber_state_after_creation (func : List YieldReq) :
    (createFiber func).1.state =
      (if func.isEmpty then FiberState.FiberFinished else FiberState.FiberWaiting) ∧
    (createFiber func).1.state ≠ FiberState.FiberIdle := by
  cases func <;>
    simp [createFiber, Fiber.start, Fiber.runBody]

/-- C3: calling wake on a fiber whose state is FiberFinished or
FiberRunning has no observable effect: the fiber is unchanged and no
notification is emitted. -/
theorem wake_noop_unless_waiting (f : Fiber)
    (h : f.state = FiberState.FiberFinished ∨ f.state = FiberState.FiberRunning) :
    f.wake = (f, []) := by
  rcases h with h | h <;> simp [Fiber.wake, h]

/-- C3 witness: wake on a concrete finished fiber leaves it unchanged and
emits nothing. -/
theorem wake_noop_unless_waiting_witness :
    Fiber.wake finishedSample = (finishedSample, []) :=
  wake_noop_unless_waiting finishedSample (Or.inl rfl)

/-- C4: on a waiting fiber, the first wake performs the Waiting to Running
transition, retires the pending WakeCondition and emits running and
stateChanged exactly once; an immediately following second wake is a no-op
emitting nothing, so the fiber is resumed exactly once. -/
theorem wake_twice_resumes_once (f : Fiber) (h : f.state = FiberState.FiberWaiting) :
    f.wake.1.state = FiberState.FiberRunning ∧
    f.wake.1.cond = none ∧
    f.wake.2 = [Signal.running, Signal.stateChanged FiberState.FiberRunning] ∧
    f.wake.1.wake = (f.wake.1, []) := by
  simp [Fiber.wake, h]

/-- C4 witness: double wake on a concrete waiting fiber with a pending
manual condition. -/
theorem wake_twice_resumes_once_witness :
    (Fiber.wake waitingSample).1.state = FiberState.FiberRunning ∧
    (Fiber.wake waitingSample).1.cond = none ∧
    (Fiber.wake waitingSample).2 =
      [Signal.running, Signal.stateChanged FiberState.FiberRunning] ∧
    (Fiber.wake waitingSample).1.wake = ((Fiber.wake waitingSample).1, []) :=
  wake_twice_resumes_once waitingSample rfl

/-- C2: every state change made by the start, wake, or run-body steps
follows one of the lifecycle edges Idle to Running, Running to Waiting,
Waiting to Running, Running to Finished (or leaves the state unchanged);
and FiberFinished is terminal: once finished, wake, body resumption, start
and the scheduler tick all leave the fiber unchanged and emit nothing. -/
theorem fiber_state_machine_edges (f : Fiber) (period elapsed : Nat) :
    allowedStep f.state f.start.1.state ∧
    allowedStep f.state f.wake.1.state ∧
    allowedStep f.state f.runBody.1.state ∧
    (f.state = FiberState.FiberFinished →
      f.wake = (f, []) ∧ f.runBody = (f, []) ∧ f.start = (f, []) ∧
      schedTick period f elapsed = (f, [])) := by
  obtain ⟨s, c, b⟩ := f
  cases s <;> cases b <;>
    simp [allowedStep, Fiber.start, Fiber.wake, Fiber.runBody, schedTick]

/-- C2 witness: the terminal clause instantiated at a concrete finished
fiber. -/
theorem fiber_state_machine_edges_witness :
    Fiber.wake finishedSample = (finishedSample, []) ∧
    Fiber.runBody finishedSample = (finishedSample, []) ∧
    Fiber.start finishedSample = (finishedSample, []) ∧
    schedTick 1 finishedSample 1 = (finishedSample, []) :=
  (fiber_state_machine_edges finishedSample 1 1).2.2.2 rfl

/-- C5: a fiber that suspends via the QFuture yield and is later resumed
after the handle completes receives back the identical handle as the
return value of the yield call, with no second lookup. -/
theorem yieldFuture_round_trip {T : Type} (f : Fiber) (future : T) :
    (yieldFuture (some f) future).suspended = true ∧
    (yieldFuture (some f) future).returned = future :=
  ⟨rfl, rfl⟩

/-- C9: the QFuture yield called with no current fiber on the calling
execution context returns the handle immediately, suspends nothing,
installs no WakeCondition, and reports no error. -/
theorem yieldFuture_no_current_fiber {T : Type} (future : T) :
    yieldFuture (none : Option Fiber) future =
      { returned := future, installedWaker := false, suspended := false,
        errorReported := false } :=
  rfl

/-- C10 evaluation: the member-pointer yield template as written in
src/lib/fiber.h line 83 does not forward to the functional poll overload:
its unqualified callee name does not resolve to any member the header
declares (while the intended name does), and the bound member function
pointer returns void, which cannot be wrapped as the bool returning
callable the poll overload requires. -/
theorem memberYield_template_broken :
    resolveCallable memberYieldCalleeName = none ∧
    resolveCallable "yield" = some "yield" ∧
    usableAsPollFunc memberYieldFuncPtrRet = false ∧
    usableAsPollFunc pollYieldFuncRet = true :=
  ⟨rfl, rfl, rfl, rfl⟩

/-- C8: after setDefaultStackSize stores a quint32 value, the getter
returns that value; the setter leaves every already created fiber record
untouched (before and after a creation); and creation resolves the stack
size from the configuration in force at creation time, a configured 0
meaning the host process default. -/
theorem defaultStackSize_config (w : World) (n : Nat) (h : n < 2 ^ 32) :
    getDefaultStackSize (setDefaultStackSize w n) = n ∧
    (setDefaultStackSize w n).fibers = w.fibers ∧
    (setDefaultStackSize (createFiberRec w).1 n).fibers = (createFiberRec w).1.fibers ∧
    (createFiberRec w).2.stackSize =
      (if w.uiDefaultStackSize = 0 then w.hostStackSize else w.uiDefaultStackSize) := by
  refine ⟨?_, rfl, rfl, rfl⟩
  show n % 2 ^ 32 = n
  exact Nat.mod_eq_of_lt h

/-- C8 witness: the configuration theorem instantiated at a concrete
world whose configured size is 0 and a concrete new value. -/
theorem defaultStackSize_config_witness :
    getDefaultStackSize
      (setDefaultStackSize { uiDefaultStackSize := 0, hostStackSize := 4096, fibers := [] }
        65536) = 65536 ∧
    (setDefaultStackSize { uiDefaultStackSize := 0, hostStackSize := 4096, fibers := [] }
      65536).fibers = [] ∧
    (setDefaultStackSize
      (createFiberRec { uiDefaultStackSize := 0, hostStackSize := 4096, fibers := [] }).1
        65536).fibers =
      (createFiberRec { uiDefaultStackSize := 0, hostStackSize := 4096, fibers := [] }).1.fibers ∧
    (createFiberRec { uiDefaultStackSize := 0, hostStackSize := 4096, fibers := [] }).2.stackSize =
      (if (0 : Nat) = 0 then 4096 else 0) :=
  defaultStackSize_config { uiDefaultStackSize := 0, hostStackSize := 4096, fibers := [] }
    65536 (by decide)

/-- Characterisation of ceiling division: the tick count reaches the
ceiling exactly when the time the ticks cover reaches the duration. -/
theorem ceilDiv_le_iff (a b n : Nat) (hb : 0 < b) : ceilDiv a b ≤ n ↔ a ≤ n * b := by
  unfold ceilDiv
  rw [Nat.div_le_iff_le_mul_add_pred hb, Nat.mul_comm b n]
  generalize n * b = m
  omega

/-- Splitting a scheduler run into two consecutive runs. -/
theorem schedRunFrom_add (period : Nat) (f : Fiber) (e m n : Nat) :
    schedRunFrom period f e (m + n) =
      ((schedRunFrom period (schedRunFrom period f e m).1 (e + m) n).1,
        (schedRunFrom period f e m).2 ++
          (schedRunFrom period (schedRunFrom period f e m).1 (e + m) n).2) := by
  induction m generalizing f e with
  | zero => simp [schedRunFrom]
  | succ k ih =>
    have h1 : k + 1 + n = (k + n) + 1 := by omega
    rw [h1]
    simp only [schedRunFrom]
    rw [ih]
    simp [List.append_assoc, show e + 1 + k = e + (k + 1) from by omega]

/-- A waiting fiber with a timed condition is untouched by scheduler ticks
that all lie strictly before the deadline. -/
theorem schedRunFrom_timed_sleep (period iMs : Nat) (body : List YieldReq) (e n : Nat)
    (h : ∀ t, e ≤ t → t < e + n → t * period < iMs) :
    schedRunFrom period (timedFiber iMs body) e n = (timedFiber iMs body, []) := by
  induction n generalizing e with
  | zero => rfl
  | succ m ih =>
    have ht : ¬ iMs ≤ e * period := by
      have := h e le_rfl (by omega)
      omega
    have htick : schedTick period (timedFiber iMs body) e = (timedFiber iMs body, []) := by
      simp [schedTick, timedFiber, ht]
    have hrest := ih (e + 1) (fun t h1 h2 => h t (by omega) (by omega))
    simp [schedRunFrom, htick, hrest]

/-- A wake delivered by the scheduler to a waiting fiber emits the running
notification. -/
theorem wakeRun_emits_running (f : Fiber) (h : f.state = FiberState.FiberWaiting) :
    Signal.running ∈ f.wakeRun.2 := by
  simp [Fiber.wakeRun, Fiber.wake, h]

/-- C6: for a fiber suspended with a timed yield of iMs milliseconds under
tick period `period`, the running notification has been emitted within n
scheduler ticks exactly when n reaches the ceiling of iMs over the period:
it never fires before the deadline, and a duration smaller than one tick
still waits one full tick. -/
theorem yield_ms_deadline (period iMs n : Nat) (body : List YieldReq)
    (hP : 0 < period) (hMs : 0 < iMs) :
    Signal.running ∈ (schedRun period (timedFiber iMs body) n).2 ↔
      ceilDiv iMs period ≤ n := by
  have hlt : ∀ t, t < ceilDiv iMs period → t * period < iMs := by
    intro t ht
    by_contra hc
    push_neg at hc
    have := (ceilDiv_le_iff iMs period t hP).mpr hc
    omega
  constructor
  · intro hmem
    by_contra hn
    push_neg at hn
    have hsleep := schedRunFrom_timed_sleep period iMs body 1 n
      (fun t h1 h2 => hlt t (by omega))
    rw [schedRun, hsleep] at hmem
    simp at hmem
  · intro hk
    have hk1 : 1 ≤ ceilDiv iMs period := by
      by_contra h0
      push_neg at h0
      have := (ceilDiv_le_iff iMs period 0 hP).mp (by omega)
      omega
    have hsplit : n = (ceilDiv iMs period - 1) + (n - (ceilDiv iMs period - 1)) := by omega
    rw [schedRun, hsplit, schedRunFrom_add]
    have hsleep := schedRunFrom_timed_sleep period iMs body 1 (ceilDiv iMs period - 1)
      (fun t h1 h2 => hlt t (by omega))
    rw [hsleep]
    have hn1 : n - (ceilDiv iMs period - 1) = (n - ceilDiv iMs period) + 1 := by omega
    rw [hn1]
    simp only [schedRunFrom]
    have hfire : iMs ≤ (1 + (ceilDiv iMs period - 1)) * period := by
      have := (ceilDiv_le_iff iMs period (ceilDiv iMs period) hP).mp le_rfl
      have he : 1 + (ceilDiv iMs period - 1) = ceilDiv iMs period := by omega
      rw [he]
      exact this
    have htick : schedTick period (timedFiber iMs body) (1 + (ceilDiv iMs period - 1)) =
        (timedFiber iMs body).wakeRun := by
      simp [schedTick, timedFiber, hfire]
    rw [htick]
    have hrun : Signal.running ∈ (timedFiber iMs body).wakeRun.2 :=
      wakeRun_emits_running _ rfl
    simp only [List.mem_append]
    exact Or.inr (Or.inl hrun)

/-- C6 witness: with tick period 2 and a 3 millisecond timed yield, the
running notification is present after 2 ticks, the ceiling of 3 over 2. -/
theorem yield_ms_deadline_witness :
    Signal.running ∈ (schedRun 2 (timedFiber 3 []) 2).2 :=
  (yield_ms_deadline 2 3 2 [] (by decide) (by decide)).mpr (by decide)

/-- Strictly between two consecutive multiples of c, a number is not a
multiple of c. -/
theorem mod_ne_zero_of_between (c k t : Nat) (_hc : 0 < c)
    (h1 : k * c + 1 ≤ t) (h2 : t < k * c + c) : t % c ≠ 0 := by
  intro heq
  obtain ⟨s, hs⟩ := Nat.dvd_of_mod_eq_zero heq
  subst hs
  have hks : k < s := by
    rcases Nat.lt_or_ge k s with h | h
    · exact h
    · exfalso
      have h3 : c * s ≤ c * k := Nat.mul_le_mul_left c h
      have h4 : c * k = k * c := Nat.mul_comm c k
      omega
  have h5 : c * (k + 1) ≤ c * s := Nat.mul_le_mul_left c hks
  have h6 : c * (k + 1) = k * c + c := by ring
  omega

/-- A waiting fiber with a poll condition and no pending wake is untouched
by scheduler ticks that are not on the poll cadence. -/
theorem schedRunFrom_poll_sleep (period : Nat) (func : Nat → Bool) (iPoll inv : Nat)
    (body : List YieldReq) (e n : Nat)
    (h : ∀ t, e ≤ t → t < e + n → t % ticksFor period iPoll ≠ 0) :
    schedRunFrom period (pollFiber func iPoll inv false body) e n =
      (pollFiber func iPoll inv false body, []) := by
  induction n generalizing e with
  | zero => rfl
  | succ m ih =>
    have ht := h e le_rfl (by omega)
    have htick : schedTick period (pollFiber func iPoll inv false body) e =
        (pollFiber func iPoll inv false body, []) := by
      simp [schedTick, pollFiber, ht]
    have hrest := ih (e + 1) (fun t h1 h2 => h t (by omega) (by omega))
    simp [schedRunFrom, htick, hrest]

/-- Running the scheduler across one poll cadence boundary performs exactly
one predicate invocation and records its outcome as a pending wake,
emitting nothing. -/
theorem schedRunFrom_poll_to_next (period : Nat) (func : Nat → Bool) (iPoll inv : Nat)
    (body : List YieldReq) (e n : Nat)
    (hmid : ∀ t, e ≤ t → t < e + n → t % ticksFor period iPoll ≠ 0)
    (hend : (e + n) % ticksFor period iPoll = 0) :
    schedRunFrom period (pollFiber func iPoll inv false body) e (n + 1) =
      (pollFiber func iPoll (inv + 1) (func inv) body, []) := by
  rw [schedRunFrom_add period (pollFiber func iPoll inv false body) e n 1]
  rw [schedRunFrom_poll_sleep period func iPoll inv body e n hmid]
  have htick : schedTick period (pollFiber func iPoll inv false body) (e + n) =
      (pollFiber func iPoll (inv + 1) (func inv) body, []) := by
    simp [schedTick, pollFiber, hend]
  simp [schedRunFrom, htick]

/-- One full poll cadence period starting just after a cadence boundary:
the predicate is invoked exactly once, at the next boundary. -/
theorem schedRunFrom_poll_chunk (period : Nat) (func : Nat → Bool) (iPoll inv k : Nat)
    (body : List YieldReq) :
    schedRunFrom period (pollFiber func iPoll inv false body)
        (k * ticksFor period iPoll + 1) (ticksFor period iPoll) =
      (pollFiber func iPoll (inv + 1) (func inv) body, []) := by
  have hc : 1 ≤ ticksFor period iPoll := le_max_left 1 _
  have hmid : ∀ t, k * ticksFor period iPoll + 1 ≤ t →
      t < k * ticksFor period iPoll + 1 + (ticksFor period iPoll - 1) →
      t % ticksFor period iPoll ≠ 0 := by
    intro t h1 h2
    exact mod_ne_zero_of_between (ticksFor period iPoll) k t hc h1 (by omega)
  have hend : (k * ticksFor period iPoll + 1 + (ticksFor period iPoll - 1)) %
      ticksFor period iPoll = 0 := by
    rw [show k * ticksFor period iPoll + 1 + (ticksFor period iPoll - 1) =
        (k + 1) * ticksFor period iPoll from by
      have h6 : (k + 1) * ticksFor period iPoll =
          k * ticksFor period iPoll + ticksFor period iPoll := by ring
      omega]
    exact Nat.mul_mod_left (k + 1) (ticksFor period iPoll)
  have h := schedRunFrom_poll_to_next period func iPoll inv body
    (k * ticksFor period iPoll + 1) (ticksFor period iPoll - 1) hmid hend
  rw [show ticksFor period iPoll - 1 + 1 = ticksFor period iPoll from by omega] at h
  exact h

/-- Iterating full cadence periods while the predicate keeps returning
false: after m periods the predicate has been invoked m times and no wake
is pending. -/
theorem schedRunFrom_poll_chunks (period : Nat) (func : Nat → Bool) (iPoll : Nat)
    (body : List YieldReq) (m : Nat) (hfalse : ∀ j, j < m → func j = false) :
    schedRunFrom period (pollFiber func iPoll 0 false body) 1 (m * ticksFor period iPoll) =
      (pollFiber func iPoll m false body, []) := by
  induction m with
  | zero => simp [schedRunFrom]
  | succ k ih =>
    have hk := ih (fun j hj => hfalse j (by omega))
    have hsplit : (k + 1) * ticksFor period iPoll =
        k * ticksFor period iPoll + ticksFor period iPoll := by ring
    rw [hsplit, schedRunFrom_add, hk]
    dsimp only
    have hchunk := schedRunFrom_poll_chunk period func iPoll k k body
    rw [show k * ticksFor period iPoll + 1 = 1 + k * ticksFor period iPoll from by omega]
      at hchunk
    rw [hchunk, hfalse k (by omega)]
    simp

/-- Running a poll fiber for q full cadence periods plus a partial one
while the predicate has returned false q times: the predicate has been
invoked exactly q times and nothing was emitted. -/
theorem schedRunFrom_poll_partial (period : Nat) (func : Nat → Bool) (iPoll : Nat)
    (body : List YieldReq) (q r : Nat) (hr : r < ticksFor period iPoll)
    (hfalse : ∀ j, j < q → func j = false) :
    schedRunFrom period (pollFiber func iPoll 0 false body) 1
        (q * ticksFor period iPoll + r) =
      (pollFiber func iPoll q false body, []) := by
  rw [schedRunFrom_add, schedRunFrom_poll_chunks period func iPoll body q hfalse]
  dsimp only
  have hsleep := schedRunFrom_poll_sleep period func iPoll q body
    (1 + q * ticksFor period iPoll) r
    (fun t h1 h2 => mod_ne_zero_of_between (ticksFor period iPoll) q t
      (le_max_left 1 _) (by omega) (by omega))
  rw [hsleep]
  simp

/-- Running a poll fiber up to and including the cadence boundary of the
first true predicate return: the true outcome is recorded as a pending
wake and nothing has been emitted yet. -/
theorem schedRunFrom_poll_full (period : Nat) (func : Nat → Bool) (iPoll : Nat)
    (body : List YieldReq) (i0 : Nat) (hprev : ∀ j, j < i0 → func j = false) :
    schedRunFrom period (pollFiber func iPoll 0 false body) 1
        ((i0 + 1) * ticksFor period iPoll) =
      (pollFiber func iPoll (i0 + 1) (func i0) body, []) := by
  have hsplit : (i0 + 1) * ticksFor period iPoll =
      i0 * ticksFor period iPoll + ticksFor period iPoll := by ring
  rw [hsplit, schedRunFrom_add, schedRunFrom_poll_chunks period func iPoll body i0 hprev]
  dsimp only
  have hchunk := schedRunFrom_poll_chunk period func iPoll i0 i0 body
  rw [show i0 * ticksFor period iPoll + 1 = 1 + i0 * ticksFor period iPoll from by omega]
    at hchunk
  rw [hchunk]
  simp

/-- C7: for a fiber suspended with a poll yield of predicate `func` and
interval iPoll under tick period `period`: one cadence period covers at
least the requested interval (sub-tick intervals collapse to one tick);
within the first (i0 + 1) cadence periods the predicate has been invoked
exactly once per period (n / cadence invocations after n ticks) with a
pending wake recorded exactly at the boundary of the first true return;
and the running notification has been emitted within n ticks exactly when
n reaches the tick immediately following that boundary, never before. -/
theorem yield_poll_cadence (period : Nat) (func : Nat → Bool) (iPoll : Nat)
    (body : List YieldReq) (i0 n : Nat) (hP : 0 < period)
    (htrue : func i0 = true) (hprev : ∀ j, j < i0 → func j = false) :
    iPoll ≤ ticksFor period iPoll * period ∧
    (n ≤ (i0 + 1) * ticksFor period iPoll →
      (schedRun period (pollFiber func iPoll 0 false body) n).1.cond =
        some (WakeCondition.poll func iPoll (n / ticksFor period iPoll)
          (decide (n / ticksFor period iPoll = i0 + 1)))) ∧
    (Signal.running ∈ (schedRun period (pollFiber func iPoll 0 false body) n).2 ↔
      (i0 + 1) * ticksFor period iPoll + 1 ≤ n) := by
  have hc : 0 < ticksFor period iPoll := le_max_left 1 _
  have hrunfull : ∀ m, m ≤ (i0 + 1) * ticksFor period iPoll →
      schedRun period (pollFiber func iPoll 0 false body) m =
        (pollFiber func iPoll (m / ticksFor period iPoll)
          (decide (m / ticksFor period iPoll = i0 + 1)) body, []) := by
    intro m hm
    rcases Nat.lt_or_ge m ((i0 + 1) * ticksFor period iPoll) with hlt | hge
    · have hqlt : m / ticksFor period iPoll < i0 + 1 :=
        (Nat.div_lt_iff_lt_mul hc).mpr hlt
      have hdec : decide (m / ticksFor period iPoll = i0 + 1) = false :=
        decide_eq_false (by omega)
      have hcm : ticksFor period iPoll * (m / ticksFor period iPoll) =
          m / ticksFor period iPoll * ticksFor period iPoll :=
        Nat.mul_comm _ _
      have hdm := Nat.div_add_mod m (ticksFor period iPoll)
      have hm2 : m = m / ticksFor period iPoll * ticksFor period iPoll +
          m % ticksFor period iPoll := by omega
      have hp := schedRunFrom_poll_partial period func iPoll body
        (m / ticksFor period iPoll) (m % ticksFor period iPoll)
        (Nat.mod_lt m hc) (fun j hj => hprev j (by omega))
      rw [← hm2] at hp
      rw [hdec, schedRun]
      exact hp
    · have hm3 : m = (i0 + 1) * ticksFor period iPoll := by omega
      have hq : m / ticksFor period iPoll = i0 + 1 := by
        rw [hm3]
        exact Nat.mul_div_cancel _ hc
      have hdec : decide (m / ticksFor period iPoll = i0 + 1) = true :=
        decide_eq_true hq
      rw [hdec, hq, schedRun, hm3, ← htrue]
      exact schedRunFrom_poll_full period func iPoll body i0 hprev
  refine ⟨?_, ?_, ?_, ?_⟩
  · have h1 : ceilDiv iPoll period ≤ ticksFor period iPoll := le_max_right 1 _
    have h2 : iPoll ≤ ceilDiv iPoll period * period :=
      (ceilDiv_le_iff iPoll period (ceilDiv iPoll period) hP).mp le_rfl
    calc iPoll ≤ ceilDiv iPoll period * period := h2
    _ ≤ ticksFor period iPoll * period := Nat.mul_le_mul_right period h1
  · intro hn
    rw [hrunfull n hn]
    rfl
  · intro hmem
    by_contra hbig
    push_neg at hbig
    rw [hrunfull n (by omega)] at hmem
    simp at hmem
  · intro hn
    have hsplit : n = (i0 + 1) * ticksFor period iPoll +
        ((n - (i0 + 1) * ticksFor period iPoll - 1) + 1) := by omega
    rw [schedRun, hsplit, schedRunFrom_add,
      schedRunFrom_poll_full period func iPoll body i0 hprev, htrue]
    dsimp only
    simp only [schedRunFrom]
    have htick : schedTick period (pollFiber func iPoll (i0 + 1) true body)
        (1 + (i0 + 1) * ticksFor period iPoll) =
        (pollFiber func iPoll (i0 + 1) true body).wakeRun := by
      simp [schedTick, pollFiber]
    rw [htick]
    have hrun : Signal.running ∈ (pollFiber func iPoll (i0 + 1) true body).wakeRun.2 :=
      wakeRun_emits_running _ rfl
    simp only [List.mem_append, List.not_mem_nil, false_or]
    exact Or.inl hrun

/-- C7 witness: with tick period 1, interval 0 (one invocation per tick)
and a predicate first true on its second invocation, the running
notification is present after 3 ticks. -/
theorem yield_poll_cadence_witness :
    Signal.running ∈
      (schedRun 1 (pollFiber (fun j => decide (j = 1)) 0 0 false []) 3).2 :=
  (yield_poll_cadence 1 (fun j => decide (j = 1)) 0 [] 1 3 (by decide) (by decide)
    (by decide)).2.2.mpr (by decide)

end CoQt
